import Mathlib

/-!
Verification development for the `ekman2` boundary-inset swath generator
(`src/BoundarySwaths.cpp`), its CLI front end (`InsetXml`), and the
ISO 11783-10 XML reader (`src/FarmXml.cpp`).

The embedding is shallow: C++ functions become Lean functions on lists.
Planar points carry exact coordinates in a linear ordered commutative
ring (the source uses `double`; the claims at issue are control-flow and
combinatorial facts that do not depend on floating-point rounding, and
every numeric comparison in scope is translated to the exact comparison
of the same expression).  Signed `gsl::index` values become `Int`;
container sizes become `List.length`.  `gsl_Expects` contract checks
become `Option`/error branches as noted at each definition.
-/

namespace Ekman

/-- Planar point (`xy::Point` = `geom::Pt<Meters>`): an x/y pair. -/
abbrev Pt (α : Type) := α × α

variable {α : Type} [LinearOrderedCommRing α]

/-- `geom::operator-(Pt, Pt)`: displacement vector between two points. -/
def vsub (a b : Pt α) : Pt α := (a.1 - b.1, a.2 - b.2)

/-- `geom::cross(u, v) = u.dx*v.dy - u.dy*v.dx`. -/
def cross (u v : Pt α) : α := u.1 * v.2 - u.2 * v.1

/-- `geom::dot(u, v) = u.dx*v.dx + u.dy*v.dy`. -/
def dot (u v : Pt α) : α := u.1 * v.1 + u.2 * v.2

/-- `geom::Dist2(a, b) = (b - a).norm2()`, the squared Euclidean
distance.  The source also has `Dist` (with a square root); wherever the
source compares `Dist` values we compare `Dist2` values, which orders
identically because squaring is strictly monotone on non-negative
reals. -/
def Dist2 (a b : Pt α) : α :=
  dot (vsub b a) (vsub b a)

/-- `std::rotate(l.begin(), l.begin() + k, l.end())`: rotate a list left
by `k` positions. -/
def rotateLeft (l : List β) (k : Nat) : List β := l.drop k ++ l.take k

/-! ## `detail::ExtractSwaths` (src/BoundarySwaths.cpp:219-245) -/

/-- The contiguous segment `ring[a .. b]` inclusive of both endpoints:
in the source, the range `[begin + a, begin + b + 1)` handed to
`swaths.emplace_back`.  (Meaningful for `0 ≤ a ≤ b`; outside that the
source arithmetic would fall off the iterator range.) -/
def seg (ring : List (Pt α)) (a b : Int) : List (Pt α) :=
  (ring.drop a.toNat).take ((b - a).toNat + 1)

/-- The loop of `ExtractSwaths`: one segment per consecutive corner
pair.  Each iteration asserts (`gsl_Expects`) that the segment's end
index is a valid position strictly inside the ring; a violated assertion
is modelled as `none`.  (For the first pair the source only checks
`last != ring.end()`; indices past the end are already outside the
iterator abstraction, so the embedding requires `b < |ring|`
uniformly.) -/
def segsOfPairs (ring : List (Pt α)) : List Int → Option (List (List (Pt α)))
  | a :: b :: rest =>
    if b < (ring.length : Int) then
      match segsOfPairs ring (b :: rest) with
      | some s => some (seg ring a b :: s)
      | none => none
    else none
  | _ => some []

/-- `detail::ExtractSwaths(ring, corners)`: partition a closed ring into
swaths at its corners.  `none` models a `gsl_Expects` contract failure
(`corners.size() > 1 && corners[0] == 0`, and the in-range checks of the
loop and of the final segment). -/
def ExtractSwaths (ring : List (Pt α)) (corners : List Int) :
    Option (List (List (Pt α))) :=
  if 1 < corners.length ∧ corners.headD 1 = 0 then
    match segsOfPairs ring corners with
    | some s =>
      if corners.getLastD 0 < (ring.length : Int) then
        some (s ++ [ring.drop (corners.getLastD 0).toNat])
      else none
    | none => none
  else none

/-- Glue a swath list back together, dropping the duplicated join vertex
at the head of every swath after the first (used to state the
edge-coverage property of `ExtractSwaths`). -/
def glueTail : List (List β) → List β
  | [] => []
  | s :: rest => s.drop 1 ++ glueTail rest

/-- `glueShared (s :: rest) = s ++ glueTail rest`: the concatenation of
the swaths with adjacent duplicate join vertices removed. -/
def glueShared : List (List β) → List β
  | [] => []
  | s :: rest => s ++ glueTail rest

/-- The swath list `ExtractSwaths` produces under its precondition: one
segment per consecutive corner pair, plus the final tail path from the
last corner to the end of the closed ring (used to state the claim
about `ExtractSwaths`; the claim theorem proves the two agree). -/
def swathsSpec (ring : List (Pt α)) (corners : List Int) : List (List (Pt α)) :=
  (corners.zip corners.tail).map (fun q => seg ring q.1 q.2) ++
    [ring.drop (corners.getLastD 0).toNat]


/-! ## `detail::AdjustCorners` (src/BoundarySwaths.cpp:139-179) -/

/-- The scanning loop of `AdjustCorners`'s farthest-point search:
`pts` are the remaining ring vertices, `i` the index of the first of
them, `bestI`/`bestD` the best index and its (squared) distance so far.
The source keeps the incumbent on `d <= farthest_d` and replaces it
otherwise. -/
def farthestScan (b : Pt α) : List (Pt α) → Nat → Nat → α → Nat
  | [], _, bestI, _ => bestI
  | p :: rest, i, bestI, bestD =>
    let d := Dist2 p b
    if d ≤ bestD then farthestScan b rest (i + 1) bestI bestD
    else farthestScan b rest (i + 1) i d

/-- The farthest-from-`ring[0]` vertex index computed when
`AdjustCorners` needs a second corner: the candidate starts at index 1
with distance `Dist(ring[1], ring[0])`, then indices `2 …` are scanned.
(The source compares `Dist`; `Dist2` compares identically.)  For rings
with fewer than 2 vertices the search is out of its domain; the
definition returns 0 there (the source would dereference past the
end). -/
def farthestIdx (ring : List (Pt α)) : Int :=
  match ring with
  | b :: p1 :: rest => (farthestScan b rest 2 1 (Dist2 p1 b) : Int)
  | _ => 0

/-- The rotation block of `AdjustCorners`
(src/BoundarySwaths.cpp:143-160), acting on the unclosed ring `r0` and
non-empty corner list `cs0`: when `corners.front() != 0`, rotate the
ring by the shorter of the forward shift (`corners.front()`) and the
backward shift (`corners.back() - ssize(ring)`), renumbering the corner
list; the backward case drops `corners.back()` and prepends 0. -/
def adjustRotate (r0 : List (Pt α)) (cs0 : List Int) :
    List (Pt α) × List Int :=
  if cs0.headD 0 ≠ 0 then
    let shift1 := cs0.headD 0
    let shift2 := cs0.getLastD 0 - (r0.length : Int)
    let mid := if shift1 < -shift2 then shift1 else shift2
    if 0 ≤ mid then
      (rotateLeft r0 mid.toNat, cs0.map (fun c => c - mid))
    else
      (rotateLeft r0 (r0.length - (-mid).toNat),
       0 :: (cs0.dropLast.map (fun c => c + (-mid))))
  else (r0, cs0)

/-- `detail::AdjustCorners(ring, corners)`: drop the closing vertex,
ensure the corner list is non-empty, rotate the ring (choosing the
shorter of the forward/backward shifts) so that vertex 0 is a corner,
add a farthest-point corner if only one corner exists, and re-close the
ring.  Returns the modified `(ring, corners)` pair (the C++ mutates both
in place). -/
def AdjustCorners (ring : List (Pt α)) (corners : List Int) :
    List (Pt α) × List Int :=
  let r0 := ring.dropLast
  let cs0 := if corners.isEmpty then [0] else corners
  let p := adjustRotate r0 cs0
  let cs2 := if p.2.length < 2 then p.2 ++ [farthestIdx p.1] else p.2
  (p.1 ++ [p.1.headD (0, 0)], cs2)

/-! ## `detail::MapCornersToOriginal` (src/BoundarySwaths.cpp:110-137) -/

/-- The inner scan of `MapCornersToOriginal`:
`for (i = i0+1; i != n; ++i) if (Dist2(orig[i], corner) < best_d2) …`.
Structural recursion on the remaining iteration count `gas = n - i`;
the loop runs no iterations when `i0 + 1 ≥ n` (in the source `i != n`
would then never terminate the loop in a defined way). -/
def bestScan (corner : Pt α) (orig : List (Pt α)) :
    Nat → Nat → Nat → α → Nat
  | 0, _, bestI, _ => bestI
  | gas + 1, i, bestI, bestD =>
    let d := Dist2 (orig.getD i (0, 0)) corner
    if d < bestD then bestScan corner orig gas (i + 1) i d
    else bestScan corner orig gas (i + 1) bestI bestD

/-- The per-corner loop of `MapCornersToOriginal`, carrying the start
cursor `i0`.  Note the faithful translation of the source's
`i0 = std::min(gsl::index{0}, best_i + 1)`. -/
def mapLoop (orig simp : List (Pt α)) (n : Nat) :
    List Int → Int → List Int
  | [], _ => []
  | sc :: rest, i0 =>
    let corner := simp.getD sc.toNat (0, 0)
    let b0 := i0.toNat
    let best := bestScan corner orig (n - (b0 + 1)) (b0 + 1) b0
                  (Dist2 (orig.getD b0 (0, 0)) corner)
    (best : Int) :: mapLoop orig simp n rest (min 0 ((best : Int) + 1))

/-- `std::sort` on an integer list (ascending); on integers every
comparison sort computes the same result, here realised as insertion
sort. -/
def insertSorted (x : Int) : List Int → List Int
  | [] => [x]
  | y :: r => if x ≤ y then x :: y :: r else y :: insertSorted x r

/-- See `insertSorted`. -/
def sortInts : List Int → List Int
  | [] => []
  | x :: r => insertSorted x (sortInts r)

/-- `out.erase(std::unique(out.begin(), out.end()), out.end())`:
collapse adjacent duplicates. -/
def dedupAdj : List Int → List Int
  | [] => []
  | [a] => [a]
  | a :: b :: r => if a = b then dedupAdj (b :: r) else a :: dedupAdj (b :: r)

/-- `detail::MapCornersToOriginal(orig, simp, simp_corners)`: map each
simplified-corner point to the nearest vertex of the original ring
(first minimum wins), then sort ascending and deduplicate. -/
def MapCornersToOriginal (orig simp : List (Pt α))
    (simpCorners : List Int) : List Int :=
  if orig.isEmpty ∨ simp.isEmpty ∨ simpCorners.isEmpty then []
  else dedupAdj (sortInts (mapLoop orig simp (orig.length - 1) simpCorners 0))

/-! ## `detail::FindCornersSimp` (src/BoundarySwaths.cpp:181-195) -/

/-- The corner test `curr.angle_wrt(prev) ≤ -Theta` with
`Theta = 45°`, where `angle_wrt` is
`atan2(cross(prev, curr), dot(prev, curr))`.  With `y = cross` and
`x = dot`, `atan2 y x ≤ -π/4` holds exactly when `y < 0 ∧ x + y ≤ 0`
(for `x ≤ 0, y < 0` the angle is in `(-π, -π/2]`; for `x > 0, y < 0` it
is `arctan (y/x) ≤ -π/4 ↔ y ≤ -x`; for `y ≥ 0` it is non-negative or
`π`), so the embedding uses that exact inequality. -/
def cornerTest (prev curr : Pt α) : Bool :=
  decide (cross prev curr < 0) && decide (cross prev curr + dot prev curr ≤ 0)

/-- The indexed loop of `FindCornersSimp`: `i` counts up while `gas`
counts the remaining iterations; `curr` is the edge vector entering the
iteration (becoming `prev` inside it). -/
def cornerScan (ring : List (Pt α)) : Nat → Nat → Pt α → List Int
  | 0, _, _ => []
  | gas + 1, i, curr =>
    let c2 := vsub (ring.getD (i + 1) (0, 0)) (ring.getD i (0, 0))
    (if cornerTest curr c2 then [(i : Int)] else []) ++
      cornerScan ring gas (i + 1) c2

/-- `detail::FindCornersSimp(ring)`: corner indices of a simplified
closed ring; `none` models the `gsl_Expects` contract
(`ring.size() >= 3 && ring.front() == ring.back()`). -/
def FindCornersSimp (ring : List (Pt α)) : Option (List Int) :=
  if 3 ≤ ring.length ∧ ring.head? = ring.getLast? then
    let n := ring.length - 1
    some (cornerScan ring n 0
      (vsub (ring.getD 0 (0, 0)) (ring.getD (n - 1) (0, 0))))
  else none

/-! ## `detail::Simplify` (src/BoundarySwaths.cpp:84-107)

Douglas–Peucker itself (`ggl::simplify`) and the validity predicate
(`ggl::is_valid`) live in Boost.Geometry, outside this repository; the
embedding takes them as oracle parameters `dp` and `validity`
(`validity g = none` means valid; `some f` names the single failure the
checker reports).  Tolerances are exact rationals in metres. -/

/-- `ggl::validity_failure_type` (the kinds the source distinguishes,
plus representatives of the rest). -/
inductive VFail where
  | wrongOrientation
  | selfIntersections
  | fewPoints
  | notClosed
  | spikes
  | duplicatePoints
  | disjointInterior
  | intersectingInteriors
  deriving DecidableEq, Repr

/-- `ggl::validity_failure_type_message` (stands for the library's
message text; only its injectivity into the thrown message matters
here). -/
def vmsg : VFail → String
  | .wrongOrientation => "wrong orientation"
  | .selfIntersections => "self intersections"
  | .fewPoints => "too few points"
  | .notClosed => "not closed"
  | .spikes => "spikes"
  | .duplicatePoints => "duplicate points"
  | .disjointInterior => "disjoint interior"
  | .intersectingInteriors => "intersecting interiors"

/-- Termination of the tolerance back-off: halving a tolerance that is
still at least 0.01 strictly shrinks `⌊100·t⌋`. -/
theorem floor_half_lt {t : ℚ} (h : ¬t < 1 / 100) :
    (⌊t / 2 * 100⌋).toNat < (⌊t * 100⌋).toNat := by
  push_neg at h
  have hx : (1 : ℚ) ≤ t * 100 := by linarith
  have hhalf : t / 2 * 100 = t * 100 / 2 := by ring
  have h0 : (0 : ℤ) ≤ ⌊t / 2 * 100⌋ := by
    apply Int.floor_nonneg.mpr
    nlinarith
  have hlt : ⌊t / 2 * 100⌋ < ⌊t * 100⌋ := by
    rcases le_or_lt 2 (t * 100) with h2 | h2
    · have : ⌊t / 2 * 100⌋ + 1 ≤ ⌊t * 100⌋ := by
        rw [hhalf]
        have hfl : ((⌊t * 100 / 2⌋ + 1 : ℤ) : ℚ) ≤ t * 100 := by
          have := Int.floor_le (t * 100 / 2)
          push_cast
          linarith
        exact Int.le_floor.mpr hfl
      omega
    · have hz : ⌊t / 2 * 100⌋ = 0 := by
        rw [hhalf]
        apply Int.floor_eq_zero_iff.mpr
        constructor
        · linarith
        · linarith
      have h1 : (1 : ℤ) ≤ ⌊t * 100⌋ := Int.le_floor.mpr (by push_cast; linarith)
      omega
  omega

section SimplifyModel

variable {Geo : Type} (dp : Geo → ℚ → Geo) (validity : Geo → Option VFail)

/-- The `while (tolerance >= 0.01 m)` loop of `detail::Simplify`: run
Douglas–Peucker at the current tolerance; accept a result that is valid
or whose only failure is wrong orientation; on self-intersections or
too-few-points halve the tolerance and retry; any other failure throws;
when the tolerance drops below 0.01 m, return the original geometry. -/
def simplifyLoop (geo : Geo) (t : ℚ) : Except String Geo :=
  if t < 1 / 100 then .ok geo
  else
    let s := dp geo t
    match validity s with
    | none => .ok s
    | some f =>
      if f = .wrongOrientation then .ok s
      else if f = .selfIntersections ∨ f = .fewPoints then
        simplifyLoop geo (t / 2)
      else .error ("Simplify: invalid result: " ++ vmsg f)
termination_by (⌊t * 100⌋).toNat
decreasing_by exact floor_half_lt (by assumption)

/-- `detail::Simplify(geo, tolerance)` with its entry contract
`gsl_Expects(tolerance >= 0.01 * metre)` modelled as `none`. -/
def Simplify (geo : Geo) (t : ℚ) : Option (Except String Geo) :=
  if 1 / 100 ≤ t then some (simplifyLoop dp validity geo t) else none

end SimplifyModel

/-! ## The inset pipeline (src/BoundarySwaths.cpp:56-82, 197-217,
309-326)

`xy::Polygon`/`xy::MultiPolygon`/`xy::MultiPath` become list
structures; `ggl::buffer` and the `ggl::is_valid` oracles for each
geometry kind are parameters, like `ggl::simplify` above.  Thrown
`std::runtime_error`s become `Except` errors tagged with the error kind
the spec assigns them (`InvalidInput` for the CLI-facing offset guard,
`GeometryError` for validator failures); a `gsl_Expects` contract
violation is the `bug` error. -/

/-- `xy::Polygon`: an outer ring plus inner rings. -/
structure Polygon (α : Type) where
  outer : List (Pt α)
  inners : List (List (Pt α))
  deriving DecidableEq, Repr

/-- `xy::MultiPolygon`. -/
abbrev MultiPolygon (α : Type) := List (Polygon α)

/-- `xy::MultiPath`. -/
abbrev MultiPath (α : Type) := List (List (Pt α))

/-- Failure kinds of the pipeline (spec §7's taxonomy). -/
inductive BSError where
  | invalidInput (msg : String)
  | geomError (msg : String)
  | bug
  deriving DecidableEq, Repr

/-- `detail::EnsureValid(geo)` over a validity oracle: return normally
when valid, otherwise throw `"Invalid geometry: " + message`. -/
def EnsureValidG {G : Type} (valid : G → Option VFail) (g : G) :
    Except BSError Unit :=
  match valid g with
  | none => pure ()
  | some f => throw (.geomError ("Invalid geometry: " ++ vmsg f))

/-- A failed `gsl_Expects` inside called code (modelled as `none` by the
callee) surfaces as the `bug` error kind. -/
def liftContract {β : Type} : Option β → Except BSError β
  | some b => pure b
  | none => throw .bug

section Pipeline

variable (validPoly : Polygon α → Option VFail)
variable (validMP : MultiPolygon α → Option VFail)
variable (bufferFn : Polygon α → ℚ → MultiPolygon α)
variable (dpMP : MultiPolygon α → ℚ → MultiPolygon α)
variable (dpRing : List (Pt α) → ℚ → List (Pt α))
variable (validRing : List (Pt α) → Option VFail)

/-- `detail::ComputeInset(in, offset)`: validate the input, check the
`offset >= 1 m` contract, run the negative buffer, validate the result.
The geometry argument of `ggl::buffer`'s strategy objects is the only
use of `offset`; the strategies themselves (round joins with 32 circle
points, straight sides) live inside the `bufferFn` oracle. -/
def ComputeInset (poly : Polygon α) (offset : ℚ) :
    Except BSError (MultiPolygon α) := do
  EnsureValidG validPoly poly
  if 1 ≤ offset then
    let inset := bufferFn poly offset
    EnsureValidG validMP inset
    pure inset
  else throw .bug

/-- `detail::Simplify` instantiated at `xy::MultiPolygon`, with its
entry contract and thrown errors mapped into the pipeline's error
type. -/
def SimplifyMP (mp : MultiPolygon α) (tol : ℚ) :
    Except BSError (MultiPolygon α) :=
  if 1 / 100 ≤ tol then
    match simplifyLoop dpMP validMP mp tol with
    | .ok g => pure g
    | .error m => throw (.geomError m)
  else throw .bug

/-- `detail::Simplify` instantiated at `xy::Ring`. -/
def SimplifyRing (r : List (Pt α)) (tol : ℚ) :
    Except BSError (List (Pt α)) :=
  if 1 / 100 ≤ tol then
    match simplifyLoop dpRing validRing r tol with
    | .ok g => pure g
    | .error m => throw (.geomError m)
  else throw .bug

/-- `detail::FindCorners(ring)` (src/BoundarySwaths.cpp:197-202):
simplify at `Tune::SimplifyForCorners = 10 m`, detect corners on the
simplified ring, map them back to the original ring. -/
def FindCornersRing (ring : List (Pt α)) : Except BSError (List Int) := do
  let simp ← SimplifyRing dpRing validRing ring 10
  match FindCornersSimp simp with
  | none => throw .bug
  | some sc => pure (MapCornersToOriginal ring simp sc)

/-- `detail::FindCorners(poly)` (src/BoundarySwaths.cpp:204-217): find
and adjust corners of the outer ring and of every hole; the rings are
mutated by `AdjustCorners`, so the rotated polygon is returned alongside
the corner lists `[outer, inner0, inner1, …]`. -/
def FindCornersPoly (poly : Polygon α) :
    Except BSError (Polygon α × List (List Int)) := do
  let csO ← FindCornersRing dpRing validRing poly.outer
  let aco := AdjustCorners poly.outer csO
  let inner ← poly.inners.mapM (fun r => do
    let cs ← FindCornersRing dpRing validRing r
    pure (AdjustCorners r cs))
  pure (⟨aco.1, inner.map (fun q => q.1)⟩, aco.2 :: inner.map (fun q => q.2))

/-- `farm_db::BoundarySwaths(poly_in, offset, simplifyTol)`
(src/BoundarySwaths.cpp:309-326), the planar overload: guard
`offset >= 10 cm`, inset, simplify, then per polygon find corners and
extract one `MultiPath` for the outer ring and one per hole. -/
def BoundarySwaths (poly : Polygon α) (offset tol : ℚ) :
    Except BSError (List (MultiPath α)) := do
  if offset < 1 / 10 then
    throw (.invalidInput "<offset_m> must be >= 10 cm")
  let insetMp ← ComputeInset validPoly validMP bufferFn poly offset
  let simpMp ← SimplifyMP validMP dpMP insetMp tol
  let outs ← simpMp.mapM (fun p => do
    let pc ← FindCornersPoly dpRing validRing p
    if pc.2.length = 1 + pc.1.inners.length then
      let s0 ← liftContract (ExtractSwaths pc.1.outer (pc.2.headD []))
      let rest ← (pc.1.inners.zip pc.2.tail).mapM
        (fun rc => liftContract (ExtractSwaths rc.1 rc.2))
      pure (s0 :: rest)
    else throw .bug)
  pure outs.flatten

end Pipeline

/-! ## The `InsetXml` CLI front end (src/unnamed/part_003)

`ParseArgs` is modelled from the point where `boost::program_options`
has supplied values (a `po::error` during parsing itself exits 2 before
any of this runs): the decision sequence on the parsed option values.
`fs::path::extension()` is reproduced for the checks that use it. -/

/-- The option values `ParseArgs` decides on. -/
structure CliOpts where
  helpRequested : Bool
  insetFt : ℚ
  inputPath : String
  outputPath : String
  insetName : String
  deriving DecidableEq, Repr

/-- `std::filesystem::path::extension()`: the suffix of the last path
component from its last dot, except that `"."`, `".."` and names whose
only dot is leading (dotfiles) have no extension. -/
def extensionOf (p : String) : String :=
  let fn := (p.splitOn "/").getLastD ""
  if fn = "." ∨ fn = ".." then ""
  else
    let r := fn.toList.reverse
    let pre := r.takeWhile (fun c => c ≠ '.')
    if pre.length = r.length then ""
    else if pre.length + 1 = r.length then ""
    else String.mk ('.' :: pre.reverse)

/-- Outcome of `ParseArgs` plus the `if (!opts) return 1;` in `main`:
`help` prints usage and makes `main` return 1; `argError` is a
`std::exit(2)`; `proceed` continues into `FarmDb::ReadXml`. -/
inductive CliOutcome where
  | help
  | argError (msg : String)
  | proceed (o : CliOpts)
  deriving DecidableEq, Repr

/-- `ParseArgs` (src/unnamed/part_003:27-109): help short-circuits;
then the inset bound, the output-differs-from-input check, and the two
extension checks, in source order. -/
def ParseArgs (o : CliOpts) : CliOutcome :=
  if o.helpRequested then .help
  else if o.insetFt ≤ 1 / 2 then
    .argError "inset distance must be > 0.5 ft."
  else if o.outputPath = o.inputPath then
    .argError "output file must be different than input file."
  else if ¬(extensionOf o.inputPath = ".xml" ∨ extensionOf o.inputPath = ".XML"
            ∨ extensionOf o.inputPath = ".zip") then
    .argError "input file extension must be .xml or .zip"
  else if ¬(extensionOf o.outputPath = ".xml" ∨ extensionOf o.outputPath = ".XML"
            ∨ extensionOf o.outputPath = ".wkt" ∨ extensionOf o.outputPath = ".WKT"
            ∨ extensionOf o.outputPath = ".zip") then
    .argError "output file extension must be .xml, .wkt, or .zip"
  else .proceed o

/-- The process exit code determined by the argument phase alone
(`none` when execution proceeds past it, into I/O whose exit code
depends on the run). -/
def cliExitCode : CliOutcome → Option Nat
  | .help => some 1
  | .argError _ => some 2
  | .proceed _ => none

/-- Whether the program goes on to open the input file
(`FarmDb::ReadXml` runs only on the `proceed` path). -/
def cliReadsInput : CliOutcome → Bool
  | .proceed _ => true
  | _ => false

/-- Whether the program goes on to write the output file (also only on
the `proceed` path, after a successful read and inset). -/
def cliWritesOutput : CliOutcome → Bool
  | .proceed _ => true
  | _ => false

/-! ## `FarmDb::ReadXml` (src/FarmXml.cpp:182-189, 647-761)

The XML layer (pugixml) is external; the embedding starts from the
decoded element sequence under the root: each `CTR`/`FRM`/`PFD` child
carries its `A` id attribute, its name attribute, the `PFD` `D` area,
and the optional cross-reference attributes (`FRM I`, `PFD E`/`F`).
Geometry children (`PLN`/`GGP`) do not touch the claim at issue and are
not carried. -/

/-- Child-element kinds of `ISO11783_TaskData` the reader
distinguishes. -/
inductive IsoTag where
  | CTR
  | FRM
  | PFD
  | VPN
  | other (nm : String)
  deriving DecidableEq, Repr

/-- One child element of the root. -/
structure IsoElem where
  tag : IsoTag
  idAttr : String
  nameAttr : String
  areaAttr : Int
  custRef : Option String
  farmRef : Option String
  deriving DecidableEq, Repr

/-- `std::stoi` on a non-empty digit string (the model uses unbounded
integers; `stoi`'s overflow exception is outside the collision claim's
scope). -/
def digitsVal (l : List Char) : Nat :=
  l.foldl (fun acc c => 10 * acc + (c.toNat - '0'.toNat)) 0

/-- `GetId(pfx, attr)` (src/FarmXml.cpp:182-189): full-string match of
the regular expression `pfx + "-?([0-9]+)"` and `stoi` of the captured
digits; `-1` when the string does not match. -/
def GetId (pfx attr : String) : Int :=
  let p := pfx.toList
  let s := attr.toList
  if s.take p.length = p then
    let r0 := s.drop p.length
    let r := match r0 with
      | '-' :: t => t
      | _ => r0
    if r ≠ [] ∧ r.all Char.isDigit then (digitsVal r : Int) else -1
  else -1

/-- `FindIndex(db, id)` (src/FarmXml.cpp:193-198). -/
def FindIndex (db : List Int) (id : Int) : Int :=
  match db.findIdx? (fun x => x = id) with
  | some i => (i : Int)
  | none => -1

/-- The relational content `ReadXml` builds: customer names, farm
names with their resolved customer index, field names. -/
structure FarmDbM where
  customers : List String
  farms : List (String × Option Int)
  fields : List String
  deriving DecidableEq, Repr

/-- Reader state: the three id tables (`custDb`, `farmDb`, `fieldDb`)
and the database under construction. -/
structure RState where
  custDb : List Int
  farmDb : List Int
  fieldDb : List Int
  db : FarmDbM
  deriving DecidableEq, Repr

/-- Resolve a `CTR`/`FRM` cross-reference attribute against an id
table, as `FindIndex(db, GetId(pfx, str))` plus the `< 0` rejection. -/
def resolveRef (db : List Int) (pfx msgPfx : String) :
    Option String → Except String (Option Int)
  | none => .ok none
  | some s =>
    let i := FindIndex db (GetId pfx s)
    if i < 0 then .error (msgPfx ++ s) else .ok (some i)

/-- Processing of one root child of `ReadXml`'s element loop
(src/FarmXml.cpp:647-759).  For `PFD`, the source resolves `E`/`F` in
attribute document order and checks the farm/customer cross-reference
afterwards; the model resolves `E` then `F` (when both are invalid the
source's message names whichever attribute comes first, but either way
the read fails). -/
def processElem (st : RState) (e : IsoElem) : Except String RState :=
  match e.tag with
  | .CTR =>
    let id := GetId "CTR" e.idAttr
    if id < 0 then .error ("ReadFarmDb: invalid customer id: " ++ e.idAttr)
    else if id ∈ st.custDb then
      .error ("ReadFarmDb: duplicate customer: " ++ e.idAttr)
    else .ok { st with
      custDb := st.custDb ++ [id],
      db := { st.db with customers := st.db.customers ++ [e.nameAttr] } }
  | .FRM =>
    let id := GetId "FRM" e.idAttr
    if id < 0 then .error ("ReadFarmDb: invalid farm id: " ++ e.idAttr)
    else if id ∈ st.farmDb then
      .error ("ReadFarmDb: duplicate farm: " ++ e.idAttr)
    else
      match resolveRef st.custDb "CTR" "ReadFarm: invalid customer id: "
              e.custRef with
      | .error m => .error m
      | .ok ci => .ok { st with
          farmDb := st.farmDb ++ [id],
          db := { st.db with farms := st.db.farms ++ [(e.nameAttr, ci)] } }
  | .PFD =>
    let id := GetId "PFD" e.idAttr
    if id < 0 then .error ("ReadFarmDb: invalid field id: " ++ e.idAttr)
    else if id ∈ st.fieldDb then
      .error ("ReadFarmDb: duplicate field: " ++ e.idAttr)
    else if e.areaAttr ≠ 0 then .error "ReadFarmDb: non-zero field area"
    else
      match resolveRef st.custDb "CTR" "ReadFarmDb: invalid customer id: "
              e.custRef with
      | .error m => .error m
      | .ok ci =>
        match resolveRef st.farmDb "FRM" "ReadFarmDb: invalid farm id: "
                e.farmRef with
        | .error m => .error m
        | .ok fi =>
          let farmCust := (st.db.farms.getD (fi.getD 0).toNat ("", none)).2
          if fi.isSome ∧ farmCust ≠ ci then
            .error "ReadFarmDb: field/farm customer mismatch"
          else .ok { st with
            fieldDb := st.fieldDb ++ [id],
            db := { st.db with fields := st.db.fields ++ [e.nameAttr] } }
  | .VPN => .ok st
  | .other _ => .ok st

/-- The element loop. -/
def processList : RState → List IsoElem → Except String RState
  | st, [] => .ok st
  | st, e :: r =>
    match processElem st e with
    | .ok st' => processList st' r
    | .error m => .error m

/-- Initial reader state. -/
def initRState : RState := ⟨[], [], [], ⟨[], [], []⟩⟩

/-- `FarmDb::ReadXml` after XML parsing: the root version attributes
(negative when absent) and the child elements. -/
def ReadXml (versionMajor versionMinor : Int) (elems : List IsoElem) :
    Except String FarmDbM :=
  if versionMajor < 0 ∨ versionMinor < 0 then
    .error "ReadFarmDb: missing VersionMajor/VersionMinor"
  else
    match processList initRState elems with
    | .ok st => .ok st.db
    | .error m => .error m

/-! ## Observers used to state the claims -/

/-- Whether a pipeline result is an `InvalidInput` rejection. -/
def isInvalidInput {β : Type} : Except BSError β → Bool
  | .error (.invalidInput _) => true
  | _ => false

/-- Whether a pipeline result is a success. -/
def isOkResult {β : Type} : Except BSError β → Bool
  | .ok _ => true
  | _ => false

/-- Whether a reader result is a success. -/
def isOkRead {β : Type} : Except String β → Bool
  | .ok _ => true
  | _ => false

/-- The id prefix `ReadXml` uses for each duplicate-checked element
kind. -/
def pfxOf : IsoTag → String
  | .CTR => "CTR"
  | .FRM => "FRM"
  | .PFD => "PFD"
  | _ => ""

/-- The id table `ReadXml` maintains for each duplicate-checked element
kind. -/
def dbOf : IsoTag → RState → List Int
  | .CTR, st => st.custDb
  | .FRM, st => st.farmDb
  | .PFD, st => st.fieldDb
  | _, _ => []

/-! # Claim theorems -/

/-- C3: for every geometry and every tolerance ≥ 0.01 m, `Simplify`
applies Douglas–Peucker at the given tolerance and returns the result
when it is valid or its only failure is wrong orientation; on
self-intersections or too few points it halves the tolerance and
retries, returning the original geometry as soon as the tolerance falls
below 0.01 m; any other validity failure raises the `GeometryError`
message. -/
theorem simplify_backoff_spec {Geo : Type} (dp : Geo → ℚ → Geo)
    (validity : Geo → Option VFail) (geo : Geo) (t : ℚ)
    (ht : 1 / 100 ≤ t) :
    Simplify dp validity geo t = some (simplifyLoop dp validity geo t) ∧
    (validity (dp geo t) = none →
      simplifyLoop dp validity geo t = .ok (dp geo t)) ∧
    (validity (dp geo t) = some .wrongOrientation →
      simplifyLoop dp validity geo t = .ok (dp geo t)) ∧
    (∀ f, validity (dp geo t) = some f →
      (f = .selfIntersections ∨ f = .fewPoints) →
      simplifyLoop dp validity geo t = simplifyLoop dp validity geo (t / 2) ∧
        (t / 2 < 1 / 100 → simplifyLoop dp validity geo t = .ok geo)) ∧
    (∀ f, validity (dp geo t) = some f → f ≠ .wrongOrientation →
      f ≠ .selfIntersections → f ≠ .fewPoints →
      simplifyLoop dp validity geo t =
        .error ("Simplify: invalid result: " ++ vmsg f)) := by
  have hnlt : ¬t < 1 / 100 := not_lt.mpr ht
  refine ⟨?_, ?_, ?_, ?_, ?_⟩
  · rw [Simplify, if_pos ht]
  · intro hv
    rw [simplifyLoop, if_neg hnlt]; simp only [hv]
  · intro hv
    rw [simplifyLoop, if_neg hnlt]; simp [hv]
  · rintro f hv (rfl | rfl)
    · refine ⟨by rw [simplifyLoop, if_neg hnlt]; simp [hv], ?_⟩
      intro h2
      rw [simplifyLoop, if_neg hnlt]; simp [hv]
      rw [simplifyLoop, if_pos h2]
    · refine ⟨by rw [simplifyLoop, if_neg hnlt]; simp [hv], ?_⟩
      intro h2
      rw [simplifyLoop, if_neg hnlt]; simp [hv]
      rw [simplifyLoop, if_pos h2]
  · intro f hv h1 h2 h3
    rw [simplifyLoop, if_neg hnlt]; simp only [hv]
    have hOr : ¬(f = VFail.selfIntersections ∨ f = VFail.fewPoints) := by
      simp [h2, h3]
    show (if f = VFail.wrongOrientation then Except.ok (dp geo t)
      else if f = VFail.selfIntersections ∨ f = VFail.fewPoints then
        simplifyLoop dp validity geo (t / 2)
      else Except.error ("Simplify: invalid result: " ++ vmsg f)) = _
    rw [if_neg h1, if_neg hOr]

/-- Witness for C3 at a concrete instantiation: the identity
"Douglas–Peucker" with an always-valid checker returns its input at
tolerance 1 m. -/
theorem simplify_backoff_spec_witness :
    (1 / 100 : ℚ) ≤ 1 ∧
    Simplify (fun (g : ℕ) (_ : ℚ) => g) (fun _ => none) 0 1 =
      some (.ok 0) := by
  have h := simplify_backoff_spec (fun (g : ℕ) (_ : ℚ) => g)
    (fun _ => none) 0 1 (by norm_num)
  exact ⟨by norm_num, by rw [h.1, h.2.1 rfl]⟩

/-- C4 (code-bug evidence): `MapCornersToOriginal`'s start cursor is
`std::min(gsl::index{0}, best_i + 1) = 0`, so it never advances; on a
square ring with two simplified corner points both nearest to vertex 0,
both corners map to vertex 0 and the deduplicated output collapses to a
single corner — the claimed "advance past each match, no shared vertex"
behaviour does not hold. -/
theorem mapCorners_cursor_stuck_eval :
    MapCornersToOriginal (α := ℤ) [(0, 0), (10, 0), (10, 10), (0, 10), (0, 0)]
      [(0, 0), (1, 1), (0, 0)] [0, 1] = [0] := by
  rfl

/-- Rotation preserves list length. -/
theorem rotateLeft_length (l : List β) (k : Nat) :
    (rotateLeft l k).length = l.length := by
  simp [rotateLeft]
  omega

/-- In a strictly increasing list the head is a lower bound. -/
theorem head_le_of_pairwise {c0 : Int} {tl : List Int}
    (h : List.Pairwise (· < ·) (c0 :: tl)) :
    ∀ c ∈ c0 :: tl, c0 ≤ c := by
  intro c hc
  rcases List.mem_cons.mp hc with rfl | hmem
  · exact le_refl c
  · exact le_of_lt ((List.pairwise_cons.mp h).1 c hmem)

/-- The farthest-point scan returns an index that is at least 1 and
within the scanned range. -/
theorem farthestScan_bound (b : Pt α) (pts : List (Pt α)) :
    ∀ (i bestI : Nat) (d : α), 1 ≤ bestI → bestI < i →
      1 ≤ farthestScan b pts i bestI d ∧
        farthestScan b pts i bestI d < i + pts.length := by
  induction pts with
  | nil =>
    intro i bestI d h1 h2
    simp [farthestScan]
    omega
  | cons p rest ih =>
    intro i bestI d h1 h2
    rw [farthestScan]
    by_cases hc : Dist2 p b ≤ d
    · rw [if_pos hc]
      have := ih (i + 1) bestI d h1 (by omega)
      simpa [Nat.add_assoc, Nat.add_comm, Nat.add_left_comm] using this
    · rw [if_neg hc]
      have := ih (i + 1) i (Dist2 p b) (by omega) (by omega)
      simpa [Nat.add_assoc, Nat.add_comm, Nat.add_left_comm] using this

/-- The farthest-point index of a ring with at least two vertices lies
in `[1, |ring|)`. -/
theorem farthestIdx_bound (ring : List (Pt α)) (h : 2 ≤ ring.length) :
    1 ≤ farthestIdx ring ∧ farthestIdx ring < (ring.length : Int) := by
  match ring, h with
  | b :: p1 :: rest, _ =>
    rw [farthestIdx]
    have := farthestScan_bound b rest 2 1 (Dist2 p1 b) (le_refl 1) (by omega)
    simp only [List.length_cons]
    omega

/-- Invariants of the rotation block of `AdjustCorners`: the ring keeps
its length, and the corner list stays non-empty, starts with 0, stays
strictly increasing, and stays within `[0, |ring|)`. -/
theorem adjustRotate_spec (r0 : List (Pt α)) (cs0 : List Int)
    (hne : cs0 ≠ [])
    (hpw : List.Pairwise (· < ·) cs0)
    (hb : ∀ c ∈ cs0, 0 ≤ c ∧ c < (r0.length : Int)) :
    (adjustRotate r0 cs0).1.length = r0.length ∧
    (adjustRotate r0 cs0).2 ≠ [] ∧
    (adjustRotate r0 cs0).2.head? = some 0 ∧
    List.Pairwise (· < ·) (adjustRotate r0 cs0).2 ∧
    ∀ c ∈ (adjustRotate r0 cs0).2, 0 ≤ c ∧ c < (r0.length : Int) := by
  obtain ⟨c0, tl, rfl⟩ : ∃ c0 tl, cs0 = c0 :: tl := by
    cases cs0 with
    | nil => exact absurd rfl hne
    | cons a l => exact ⟨a, l, rfl⟩
  rw [adjustRotate]
  by_cases hh : (c0 :: tl).headD 0 ≠ 0
  · rw [if_pos hh]
    simp only [List.headD_cons] at hh ⊢
    have hc0 : 0 ≤ c0 ∧ c0 < (r0.length : Int) := hb c0 (List.mem_cons_self c0 tl)
    have hc0pos : 1 ≤ c0 := by omega
    set lst := (c0 :: tl).getLastD 0 with hlstdef
    have hlst_eq : lst = (c0 :: tl).getLast (List.cons_ne_nil c0 tl) := by
      rw [hlstdef, List.getLastD_eq_getLast?, List.getLast?_eq_getLast]
      rfl
    have hlst_mem : lst ∈ c0 :: tl := by
      rw [hlst_eq]; exact List.getLast_mem _
    have hlst : 0 ≤ lst ∧ lst < (r0.length : Int) := hb lst hlst_mem
    by_cases hmid : c0 < -(lst - (r0.length : Int))
    · rw [if_pos hmid, if_pos (by omega : (0 : Int) ≤ c0)]
      refine ⟨rotateLeft_length r0 c0.toNat, by simp, by simp, ?_, ?_⟩
      · rw [List.pairwise_map]
        exact hpw.imp (by intro a b hab; omega)
      · intro c hc
        rcases List.mem_map.mp hc with ⟨a, ha, rfl⟩
        have h1 := hb a ha
        have h2 := head_le_of_pairwise hpw a ha
        omega
    · rw [if_neg hmid, if_neg (by omega : ¬(0 : Int) ≤ lst - (r0.length : Int))]
      have hmid2 : 1 ≤ (r0.length : Int) - lst := by omega
      refine ⟨rotateLeft_length _ _, by simp, by simp, ?_, ?_⟩
      · rw [List.pairwise_cons]
        constructor
        · intro x hx
          rcases List.mem_map.mp hx with ⟨a, ha, rfl⟩
          have h1 := hb a (List.Sublist.subset (List.dropLast_sublist _) ha)
          omega
        · rw [List.pairwise_map]
          exact (hpw.sublist (List.dropLast_sublist _)).imp (by intro a b hab; omega)
      · intro c hc
        rcases List.mem_cons.mp hc with rfl | hc2
        · constructor
          · omega
          · omega
        · rcases List.mem_map.mp hc2 with ⟨a, ha, rfl⟩
          have h1 := hb a (List.Sublist.subset (List.dropLast_sublist _) ha)
          have h2 : a < lst := by
            have hsplit : (c0 :: tl).dropLast ++ [lst] = c0 :: tl := by
              rw [hlst_eq]
              exact List.dropLast_append_getLast _
            have hpw2 : List.Pairwise (· < ·) ((c0 :: tl).dropLast ++ [lst]) := by
              rwa [hsplit]
            exact (List.pairwise_append.mp hpw2).2.2 a ha lst (List.mem_singleton.mpr rfl)
          omega
  · rw [if_neg hh]
    simp only [List.headD_cons, ne_eq, not_not] at hh
    exact ⟨rfl, List.cons_ne_nil c0 tl, by rw [hh]; rfl, hpw, hb⟩

/-- C1: for every closed planar ring with at least 4 points and every
ascending duplicate-free corner list whose entries are valid vertex
indices of the unclosed ring, after `AdjustCorners` the ring is again
closed (same length, first vertex equals last), the corner list starts
with 0, has at least two strictly increasing entries, and every entry
is strictly less than `|ring| - 1`. -/
theorem adjustCorners_post (ring : List (Pt α)) (corners : List Int)
    (hlen : 4 ≤ ring.length)
    (hclosed : ring.head? = ring.getLast?)
    (hchain : List.Chain' (· < ·) corners)
    (hbounds : ∀ c ∈ corners, 0 ≤ c ∧ c < (ring.length : Int) - 1) :
    (AdjustCorners ring corners).1.head? =
      (AdjustCorners ring corners).1.getLast? ∧
    (AdjustCorners ring corners).1.length = ring.length ∧
    (AdjustCorners ring corners).2.head? = some 0 ∧
    2 ≤ (AdjustCorners ring corners).2.length ∧
    List.Chain' (· < ·) (AdjustCorners ring corners).2 ∧
    ∀ c ∈ (AdjustCorners ring corners).2,
      c < ((AdjustCorners ring corners).1.length : Int) - 1 := by
  have hr0 : ring.dropLast.length = ring.length - 1 := List.length_dropLast ring
  set r0 := ring.dropLast with hr0def
  set cs0 := (if corners.isEmpty then [0] else corners : List Int) with hcs0def
  set p := adjustRotate r0 cs0 with hpdef
  set cs2 := (if p.2.length < 2 then p.2 ++ [farthestIdx p.1] else p.2) with hcs2def
  have heq : AdjustCorners ring corners = (p.1 ++ [p.1.headD (0, 0)], cs2) := rfl
  have hr0len : 3 ≤ r0.length := by omega
  have hcs0ne : cs0 ≠ [] := by
    rw [hcs0def]
    by_cases hemp : corners.isEmpty
    · simp [hemp]
    · simpa [hemp] using (by simpa using hemp : corners ≠ [])
  have hcs0pw : List.Pairwise (· < ·) cs0 := by
    rw [hcs0def]
    by_cases hemp : corners.isEmpty
    · simp [hemp]
    · simpa [hemp] using List.chain'_iff_pairwise.mp hchain
  have hcs0b : ∀ c ∈ cs0, 0 ≤ c ∧ c < (r0.length : Int) := by
    intro c hc
    rw [hcs0def] at hc
    by_cases hemp : corners.isEmpty
    · rw [if_pos hemp] at hc
      simp only [List.mem_singleton] at hc
      subst hc
      constructor
      · omega
      · have : (3 : Int) ≤ (r0.length : Int) := by exact_mod_cast hr0len
        omega
    · rw [if_neg hemp] at hc
      have h1 := hbounds c hc
      have h2 : (r0.length : Int) = (ring.length : Int) - 1 := by
        rw [hr0]
        omega
      omega
  obtain ⟨hplen, hpne, hphead, hppw, hpb⟩ :=
    adjustRotate_spec r0 cs0 hcs0ne hcs0pw hcs0b
  rw [← hpdef] at hplen hpne hphead hppw hpb
  have hp1len : 3 ≤ p.1.length := by omega
  obtain ⟨a, t, hat⟩ : ∃ a t, p.1 = a :: t := by
    cases hthis : p.1 with
    | nil => rw [hthis] at hp1len; simp at hp1len
    | cons a t => exact ⟨a, t, rfl⟩
  have hclosure : (AdjustCorners ring corners).1.head? =
      (AdjustCorners ring corners).1.getLast? := by
    rw [heq]
    show (p.1 ++ [p.1.headD (0, 0)]).head? = (p.1 ++ [p.1.headD (0, 0)]).getLast?
    rw [hat]
    have hlast : ((a :: t) ++ [(a :: t).headD (0, 0)]).getLast? =
        some ((a :: t).headD (0, 0)) := List.getLast?_concat _
    rw [hlast]
    rfl
  have hlength : (AdjustCorners ring corners).1.length = ring.length := by
    rw [heq]
    show (p.1 ++ [p.1.headD (0, 0)]).length = ring.length
    rw [List.length_append]
    simp only [List.length_singleton]
    omega
  have hcs2facts : cs2.head? = some 0 ∧ 2 ≤ cs2.length ∧
      List.Pairwise (· < ·) cs2 ∧
      ∀ c ∈ cs2, c < (p.1.length : Int) := by
    rw [hcs2def]
    by_cases hsmall : p.2.length < 2
    · rw [if_pos hsmall]
      have hp2 : p.2 = [0] := by
        cases h2 : p.2 with
        | nil => exact absurd h2 hpne
        | cons b l =>
          rw [h2] at hphead
          simp only [List.head?_cons, Option.some.injEq] at hphead
          subst hphead
          cases l with
          | nil => rfl
          | cons c l2 =>
            rw [h2] at hsmall
            simp only [List.length_cons] at hsmall
            omega
      rw [hp2]
      have hfar := farthestIdx_bound p.1 (by omega)
      refine ⟨rfl, by simp, ?_, ?_⟩
      · simp only [List.cons_append, List.nil_append]
        exact List.pairwise_cons.mpr ⟨by
          intro x hx
          simp only [List.mem_singleton] at hx
          subst hx
          omega, by simp⟩
      · intro c hc
        simp only [List.cons_append, List.nil_append, List.mem_cons,
          List.mem_singleton, List.not_mem_nil, or_false] at hc
        rcases hc with rfl | rfl
        · have : (3 : Int) ≤ (p.1.length : Int) := by exact_mod_cast hp1len
          omega
        · exact hfar.2
    · rw [if_neg hsmall]
      refine ⟨hphead, by omega, hppw, ?_⟩
      intro c hc
      have := hpb c hc
      omega
  refine ⟨hclosure, hlength, ?_, ?_, ?_, ?_⟩
  · rw [heq]
    exact hcs2facts.1
  · rw [heq]
    exact hcs2facts.2.1
  · rw [heq]
    exact List.chain'_iff_pairwise.mpr hcs2facts.2.2.1
  · intro c hc
    rw [heq] at hc
    have h1 := hcs2facts.2.2.2 c hc
    rw [heq]
    show c < (((p.1 ++ [p.1.headD (0, 0)]).length : Int)) - 1
    rw [List.length_append]
    simp only [List.length_singleton]
    push_cast
    omega

/-- Witness for C1 at a concrete closed square ring with corner list
`[1, 2]`. -/
theorem adjustCorners_post_witness :
    (AdjustCorners (α := ℤ) [(0, 0), (10, 0), (10, 10), (0, 10), (0, 0)]
      [1, 2]).2.head? = some 0 ∧
    2 ≤ (AdjustCorners (α := ℤ) [(0, 0), (10, 0), (10, 10), (0, 10), (0, 0)]
      [1, 2]).2.length ∧
    (AdjustCorners (α := ℤ) [(0, 0), (10, 0), (10, 10), (0, 10), (0, 0)]
      [1, 2]).1.head? =
      (AdjustCorners (α := ℤ) [(0, 0), (10, 0), (10, 10), (0, 10), (0, 0)]
        [1, 2]).1.getLast? := by
  have h := adjustCorners_post (α := ℤ)
    [(0, 0), (10, 0), (10, 10), (0, 10), (0, 0)] [1, 2]
    (by norm_num) (by decide) (by norm_num [List.chain'_cons]) (by decide)
  exact ⟨h.2.2.1, h.2.2.2.1, h.1⟩

/-- Length of an inclusive ring segment. -/
theorem seg_length (ring : List (Pt α)) (a b : Int)
    (h0 : 0 ≤ a) (hab : a ≤ b) (hb : b < (ring.length : Int)) :
    (seg ring a b).length = (b - a).toNat + 1 := by
  rw [seg, List.length_take, List.length_drop]
  omega

/-- A segment starts at its first corner vertex. -/
theorem seg_head? (ring : List (Pt α)) (a b : Int)
    (h0 : 0 ≤ a) (hab : a ≤ b) (hb : b < (ring.length : Int)) :
    (seg ring a b).head? = ring[a.toNat]? := by
  rw [seg, List.head?_eq_getElem?, List.getElem?_take, if_pos (by omega)]
  rw [List.getElem?_drop]
  congr 1

/-- A segment ends at its second corner vertex. -/
theorem seg_getLast? (ring : List (Pt α)) (a b : Int)
    (h0 : 0 ≤ a) (hab : a ≤ b) (hb : b < (ring.length : Int)) :
    (seg ring a b).getLast? = ring[b.toNat]? := by
  rw [List.getLast?_eq_getElem?, seg_length ring a b h0 hab hb]
  rw [seg, List.getElem?_take, if_pos (by omega), List.getElem?_drop]
  congr 1
  omega

/-- A segment followed by the rest of the ring reassembles the ring
tail. -/
theorem seg_append_drop (ring : List (Pt α)) (a b : Int)
    (h0 : 0 ≤ a) (hab : a ≤ b) (hb : b < (ring.length : Int)) :
    seg ring a b ++ ring.drop (b.toNat + 1) = ring.drop a.toNat := by
  have hsplit := List.take_append_drop ((b - a).toNat + 1) (ring.drop a.toNat)
  rw [seg]
  nth_rewrite 2 [← hsplit]
  congr 1
  rw [List.drop_drop]
  congr 1
  omega

/-- The tail path starts at its corner vertex. -/
theorem drop_head? (ring : List (Pt α)) (b : Int)
    (h0 : 0 ≤ b) (hb : b < (ring.length : Int)) :
    (ring.drop b.toNat).head? = ring[b.toNat]? := by
  rw [List.head?_eq_getElem?, List.getElem?_drop]
  congr 1

/-- Unfolding of the specified swath list at a corner pair. -/
theorem swathsSpec_cons (ring : List (Pt α)) (a b : Int) (cs : List Int) :
    swathsSpec ring (a :: b :: cs) = seg ring a b :: swathsSpec ring (b :: cs) := by
  rw [swathsSpec, swathsSpec]
  have h1 : (a :: b :: cs).getLastD 0 = (b :: cs).getLastD 0 := by
    rw [List.getLastD_eq_getLast?, List.getLastD_eq_getLast?,
      List.getLast?_cons_cons]
  rw [h1]
  simp only [List.tail_cons, List.zip_cons_cons, List.map_cons, List.cons_append]

/-- With in-range corners, the `ExtractSwaths` loop succeeds and
produces exactly the consecutive-pair segments. -/
theorem segsOfPairs_eq (ring : List (Pt α)) :
    ∀ (cs : List Int) (a : Int), (∀ c ∈ cs, c < (ring.length : Int)) →
      segsOfPairs ring (a :: cs) =
        some (((a :: cs).zip cs).map (fun q => seg ring q.1 q.2)) := by
  intro cs
  induction cs with
  | nil => intro a _; rfl
  | cons b cs' ih =>
    intro a h
    rw [segsOfPairs, if_pos (h b (List.mem_cons_self b cs'))]
    rw [ih b (fun c hc => h c (List.mem_cons_of_mem b hc))]
    simp only [List.zip_cons_cons, List.map_cons]

/-- Master induction for C2: the specified swath list has one swath per
corner plus one, glues back to the ring tail, has only swaths of at
least two vertices, chains adjacent swaths on a shared vertex, and
starts at the first corner.  -/
theorem swathsSpec_props (ring : List (Pt α)) :
    ∀ (cs : List Int) (a : Int),
      List.Chain' (· < ·) (a :: cs) → 0 ≤ a →
      (∀ c ∈ a :: cs, c < (ring.length : Int) - 1) →
      (swathsSpec ring (a :: cs)).length = cs.length + 1 ∧
      glueShared (swathsSpec ring (a :: cs)) = ring.drop a.toNat ∧
      (∀ s ∈ swathsSpec ring (a :: cs), 2 ≤ s.length) ∧
      List.Chain' (fun s t => s.getLast? = t.head?)
        (swathsSpec ring (a :: cs)) ∧
      (swathsSpec ring (a :: cs)).head?.map List.head? =
        some (ring[a.toNat]?) := by
  intro cs
  induction cs with
  | nil =>
    intro a _ h0 hb
    have ha : a < (ring.length : Int) - 1 := hb a (List.mem_singleton.mpr rfl)
    have hld : ([a] : List Int).getLastD 0 = a := rfl
    refine ⟨by simp [swathsSpec],
      by simp [swathsSpec, glueShared, glueTail], ?_, ?_, ?_⟩
    · intro s hs
      simp only [swathsSpec, List.zip_nil_right, List.map_nil, List.nil_append,
        List.mem_singleton, List.tail_cons, hld] at hs
      subst hs
      rw [List.length_drop]
      omega
    · simp [swathsSpec]
    · simp only [swathsSpec, List.zip_nil_right, List.map_nil, List.nil_append,
        List.tail_cons, hld, List.head?_cons, Option.map_some']
      rw [drop_head? ring a h0 (by omega)]
  | cons b cs' ih =>
    intro a hch h0 hb
    have hab : a < b := (List.chain'_cons.mp hch).1
    have hbb : (0 : Int) ≤ b := by omega
    have hbs : ∀ c ∈ b :: cs', c < (ring.length : Int) - 1 :=
      fun c hc => hb c (List.mem_cons_of_mem a hc)
    obtain ⟨ihlen, ihglue, ihmin, ihchain, ihhead⟩ :=
      ih b (List.chain'_cons.mp hch).2 hbb hbs
    have hblen : b < (ring.length : Int) := by
      have := hbs b (List.mem_cons_self b cs')
      omega
    have hseghead := seg_head? ring a b h0 (le_of_lt hab) hblen
    have hseglast := seg_getLast? ring a b h0 (le_of_lt hab) hblen
    rw [swathsSpec_cons]
    obtain ⟨y, ys, hy⟩ : ∃ y ys, swathsSpec ring (b :: cs') = y :: ys := by
      cases hthis : swathsSpec ring (b :: cs') with
      | nil =>
        rw [hthis] at ihlen
        simp at ihlen
      | cons y ys => exact ⟨y, ys, rfl⟩
    have hy2 : 2 ≤ y.length := ihmin y (by rw [hy]; exact List.mem_cons_self y ys)
    refine ⟨?_, ?_, ?_, ?_, ?_⟩
    · simp only [List.length_cons, ihlen]
    · show seg ring a b ++ glueTail (swathsSpec ring (b :: cs')) = ring.drop a.toNat
      have hgt : glueTail (swathsSpec ring (b :: cs')) =
          (glueShared (swathsSpec ring (b :: cs'))).drop 1 := by
        rw [hy]
        show y.drop 1 ++ glueTail ys = (y ++ glueTail ys).drop 1
        rw [List.drop_append_of_le_length (by omega)]
      rw [hgt, ihglue, List.drop_drop, seg_append_drop ring a b h0 (le_of_lt hab) hblen]
    · intro s hs
      rcases List.mem_cons.mp hs with rfl | hs2
      · rw [seg_length ring a b h0 (le_of_lt hab) hblen]
        omega
      · exact ihmin s hs2
    · refine List.chain'_cons'.mpr ⟨?_, ihchain⟩
      intro h hh
      rw [hy] at hh ihhead
      rw [Option.mem_def] at hh
      simp only [List.head?_cons, Option.some.injEq] at hh
      subst hh
      simp only [List.head?_cons, Option.map_some', Option.some.injEq] at ihhead
      rw [hseglast, ihhead]
    · simp only [List.head?_cons, Option.map_some', Option.some.injEq]
      exact hseghead

/-- C2: for a closed ring and a corner list satisfying the adjustment
postcondition, `ExtractSwaths` succeeds and returns exactly
`|corners|` paths: one per consecutive corner pair (inclusive of both
endpoints) plus a final path from the last corner to the end of the
ring; each path has at least 2 vertices, adjacent paths share the
corner vertex at their join, and gluing the paths on their shared
joins yields the ring exactly — its edges are covered exactly once. -/
theorem extractSwaths_spec (ring : List (Pt α)) (corners : List Int)
    (hclosed : ring.head? = ring.getLast?)
    (hhead : corners.head? = some 0)
    (hlen2 : 2 ≤ corners.length)
    (hchain : List.Chain' (· < ·) corners)
    (hbound : ∀ c ∈ corners, c < (ring.length : Int) - 1) :
    ExtractSwaths ring corners = some (swathsSpec ring corners) ∧
    (swathsSpec ring corners).length = corners.length ∧
    (∀ s ∈ swathsSpec ring corners, 2 ≤ s.length) ∧
    List.Chain' (fun s t => s.getLast? = t.head?) (swathsSpec ring corners) ∧
    glueShared (swathsSpec ring corners) = ring := by
  obtain ⟨rest, rfl⟩ : ∃ rest, corners = 0 :: rest := by
    cases hc : corners with
    | nil =>
      rw [hc] at hhead
      simp at hhead
    | cons c tl =>
      rw [hc] at hhead
      simp only [List.head?_cons, Option.some.injEq] at hhead
      exact ⟨tl, by rw [hhead]⟩
  obtain ⟨hlen, hglue, hmin, hchain2, hhead2⟩ :=
    swathsSpec_props ring rest 0 hchain (le_refl 0) hbound
  have hglue2 : glueShared (swathsSpec ring (0 :: rest)) = ring := by
    rw [hglue]
    rfl
  have hlastd : (0 :: rest).getLastD 0 ∈ (0 :: rest) := by
    have h1 : (0 :: rest).getLastD 0 =
        (0 :: rest).getLast (List.cons_ne_nil 0 rest) := by
      rw [List.getLastD_eq_getLast?, List.getLast?_eq_getLast]
      rfl
    rw [h1]
    exact List.getLast_mem _
  have hlast_lt : (0 :: rest).getLastD 0 < (ring.length : Int) := by
    have := hbound _ hlastd
    omega
  have hpairs := segsOfPairs_eq ring rest 0 (fun c hc => by
    have := hbound c (List.mem_cons_of_mem 0 hc)
    omega)
  refine ⟨?_, ?_, hmin, hchain2, hglue2⟩
  · rw [ExtractSwaths, if_pos ⟨by simpa using hlen2, rfl⟩, hpairs]
    show (if (0 :: rest).getLastD 0 < (ring.length : Int) then
        some ((((0 :: rest).zip rest).map (fun q => seg ring q.1 q.2)) ++
          [ring.drop ((0 :: rest).getLastD 0).toNat])
      else none) = some (swathsSpec ring (0 :: rest))
    rw [if_pos hlast_lt]
    rfl
  · rw [hlen]
    rfl

/-- Witness for C2 at a concrete closed square with corners `[0, 2]`. -/
theorem extractSwaths_spec_witness :
    ExtractSwaths (α := ℤ) [(0, 0), (10, 0), (10, 10), (0, 10), (0, 0)]
      [0, 2] =
      some (swathsSpec (α := ℤ)
        [(0, 0), (10, 0), (10, 10), (0, 10), (0, 0)] [0, 2]) ∧
    glueShared (swathsSpec (α := ℤ)
        [(0, 0), (10, 0), (10, 10), (0, 10), (0, 0)] [0, 2]) =
      [(0, 0), (10, 0), (10, 10), (0, 10), (0, 0)] := by
  have h := extractSwaths_spec (α := ℤ)
    [(0, 0), (10, 0), (10, 10), (0, 10), (0, 0)] [0, 2]
    (by decide) (by decide) (by decide) (by norm_num [List.chain'_cons])
    (by decide)
  exact ⟨h.1, h.2.2.2.2⟩

/-- C5 counterexample: with a valid polygon (the validity oracle reports
no failure) and offset 0.5 m < 1 m, the pipeline does not produce an
`InvalidInput` rejection — it trips `ComputeInset`'s `gsl_Expects`
contract (`bug`), because the only `InvalidInput` guard in
`BoundarySwaths` is at 0.10 m. -/
theorem boundarySwaths_half_metre_not_invalidInput :
    isInvalidInput (BoundarySwaths (α := ℤ) (fun _ => none) (fun _ => none)
      (fun _ _ => []) (fun m _ => m) (fun r _ => r) (fun _ => none)
      ⟨[(0, 0), (4, 0), (4, 4), (0, 0)], []⟩ (1 / 2) 1) = false ∧
    BoundarySwaths (α := ℤ) (fun _ => none) (fun _ => none)
      (fun _ _ => []) (fun m _ => m) (fun r _ => r) (fun _ => none)
      ⟨[(0, 0), (4, 0), (4, 4), (0, 0)], []⟩ (1 / 2) 1 = .error .bug := by
  have hb : BoundarySwaths (α := ℤ) (fun _ => none) (fun _ => none)
      (fun _ _ => []) (fun m _ => m) (fun r _ => r) (fun _ => none)
      ⟨[(0, 0), (4, 0), (4, 4), (0, 0)], []⟩ (1 / 2) 1 = .error .bug := by
    rw [BoundarySwaths]
    norm_num [ComputeInset, EnsureValidG, Bind.bind, Except.bind, Pure.pure,
      Except.pure, throw, throwThe, MonadExceptOf.throw]
  exact ⟨by rw [hb]; rfl, hb⟩

/-- C5 (amended): the clean `InvalidInput` rejection threshold is
0.10 m, not 1 m: every offset below 0.10 m is rejected with
`InvalidInput` before any validation or buffering, while a valid
polygon with an offset in [0.10 m, 1 m) instead fails `ComputeInset`'s
`offset ≥ 1 m` precondition (a contract violation, `bug`), after input
validation but still before the buffer result is used. -/
theorem boundarySwaths_offset_guard
    (validPoly : Polygon α → Option VFail)
    (validMP : MultiPolygon α → Option VFail)
    (bufferFn : Polygon α → ℚ → MultiPolygon α)
    (dpMP : MultiPolygon α → ℚ → MultiPolygon α)
    (dpRing : List (Pt α) → ℚ → List (Pt α))
    (validRing : List (Pt α) → Option VFail)
    (poly : Polygon α) (offset tol : ℚ) :
    (offset < 1 / 10 →
      BoundarySwaths validPoly validMP bufferFn dpMP dpRing validRing
        poly offset tol =
        .error (.invalidInput "<offset_m> must be >= 10 cm")) ∧
    (1 / 10 ≤ offset → offset < 1 → validPoly poly = none →
      BoundarySwaths validPoly validMP bufferFn dpMP dpRing validRing
        poly offset tol = .error .bug) := by
  constructor
  · intro h
    rw [BoundarySwaths, if_pos h]
    rfl
  · intro h1 h2 hv
    have hn : ¬offset < 1 / 10 := not_lt.mpr h1
    have hno : ¬1 ≤ offset := not_le.mpr h2
    have hci : ComputeInset validPoly validMP bufferFn poly offset =
        .error .bug := by
      rw [ComputeInset]
      simp [EnsureValidG, hv, hno, Bind.bind, Except.bind, Pure.pure,
        Except.pure, throw, throwThe, MonadExceptOf.throw]
    rw [BoundarySwaths, if_neg hn, hci]
    rfl

/-- Witness for C5 (amended) at concrete oracles: offset 0.05 m is
rejected with `InvalidInput`; offset 0.3 m on a valid polygon is a
contract violation. -/
theorem boundarySwaths_offset_guard_witness :
    BoundarySwaths (α := ℤ) (fun _ => none) (fun _ => none)
      (fun _ _ => []) (fun m _ => m) (fun r _ => r) (fun _ => none)
      ⟨[(0, 0), (4, 0), (4, 4), (0, 0)], []⟩ (1 / 20) 1 =
      .error (.invalidInput "<offset_m> must be >= 10 cm") ∧
    BoundarySwaths (α := ℤ) (fun _ => none) (fun _ => none)
      (fun _ _ => []) (fun m _ => m) (fun r _ => r) (fun _ => none)
      ⟨[(0, 0), (4, 0), (4, 4), (0, 0)], []⟩ (3 / 10) 1 = .error .bug := by
  exact ⟨(boundarySwaths_offset_guard _ _ _ _ _ _ _ _ _).1 (by norm_num),
    (boundarySwaths_offset_guard _ _ _ _ _ _ _ _ _).2 (by norm_num)
      (by norm_num) rfl⟩

/-- C6 counterexample: when the buffered multipolygon's validity
failure is "wrong orientation", the inset operation does not correct it
and succeed — `EnsureValid` throws on every failure, so `ComputeInset`
fails with the `GeometryError` message. -/
theorem computeInset_wrongOrientation_fails :
    ComputeInset (α := ℤ) (fun _ => none)
      (fun _ => some .wrongOrientation) (fun _ _ => [])
      ⟨[(0, 0), (4, 0), (4, 4), (0, 0)], []⟩ 1 =
      .error (.geomError "Invalid geometry: wrong orientation") ∧
    isOkResult (ComputeInset (α := ℤ) (fun _ => none)
      (fun _ => some .wrongOrientation) (fun _ _ => [])
      ⟨[(0, 0), (4, 0), (4, 4), (0, 0)], []⟩ 1) = false := by
  have h : ComputeInset (α := ℤ) (fun _ => none)
      (fun _ => some .wrongOrientation) (fun _ _ => [])
      ⟨[(0, 0), (4, 0), (4, 4), (0, 0)], []⟩ 1 =
      .error (.geomError "Invalid geometry: wrong orientation") := by
    rw [ComputeInset]
    norm_num [EnsureValidG, vmsg, Bind.bind, Except.bind, Pure.pure,
      Except.pure, throw, throwThe, MonadExceptOf.throw]
    rfl
  exact ⟨h, by rw [h]; rfl⟩

/-- C6 (amended): the buffered multipolygon is validated before being
returned, and every validity failure — "wrong orientation" included, no
correction is performed — makes the inset operation fail with a
`GeometryError` carrying the validator's message; only a fully valid
result is returned. -/
theorem computeInset_validation
    (validPoly : Polygon α → Option VFail)
    (validMP : MultiPolygon α → Option VFail)
    (bufferFn : Polygon α → ℚ → MultiPolygon α)
    (poly : Polygon α) (offset : ℚ)
    (hv : validPoly poly = none) (ho : 1 ≤ offset) :
    (∀ f, validMP (bufferFn poly offset) = some f →
      ComputeInset validPoly validMP bufferFn poly offset =
        .error (.geomError ("Invalid geometry: " ++ vmsg f))) ∧
    (validMP (bufferFn poly offset) = none →
      ComputeInset validPoly validMP bufferFn poly offset =
        .ok (bufferFn poly offset)) := by
  constructor
  · intro f hf
    rw [ComputeInset]
    simp [EnsureValidG, hv, ho, hf, Bind.bind, Except.bind, Pure.pure,
      Except.pure, throw, throwThe, MonadExceptOf.throw]
  · intro hf
    rw [ComputeInset]
    simp [EnsureValidG, hv, ho, hf, Bind.bind, Except.bind, Pure.pure,
      Except.pure, throw, throwThe, MonadExceptOf.throw]

/-- Witness for C6 (amended) at concrete oracles: a "spikes" failure of
the buffer result turns into the `GeometryError`, and an always-valid
checker lets the buffer result through. -/
theorem computeInset_validation_witness :
    ComputeInset (α := ℤ) (fun _ => none) (fun _ => some .spikes)
      (fun _ _ => []) ⟨[(0, 0), (4, 0), (4, 4), (0, 0)], []⟩ 1 =
      .error (.geomError ("Invalid geometry: " ++ vmsg .spikes)) ∧
    ComputeInset (α := ℤ) (fun _ => none) (fun _ => none)
      (fun _ _ => [⟨[(1, 1), (3, 1), (3, 3), (1, 1)], []⟩])
      ⟨[(0, 0), (4, 0), (4, 4), (0, 0)], []⟩ 1 =
      .ok [⟨[(1, 1), (3, 1), (3, 3), (1, 1)], []⟩] := by
  exact ⟨(computeInset_validation _ _ _ _ _ rfl (le_refl 1)).1 .spikes rfl,
    (computeInset_validation _ _ _ _ _ rfl (le_refl 1)).2 rfl⟩

/-- C8: when the negative-offset buffer comes back empty, the empty
multipolygon flows through validation, simplification and the per-
polygon loop without error, and `BoundarySwaths` returns the empty
output list.  The oracle hypotheses record the Boost.Geometry facts the
control flow relies on: the empty multipolygon is valid, and
simplifying it yields the empty multipolygon. -/
theorem boundarySwaths_empty_inset
    (validPoly : Polygon α → Option VFail)
    (validMP : MultiPolygon α → Option VFail)
    (bufferFn : Polygon α → ℚ → MultiPolygon α)
    (dpMP : MultiPolygon α → ℚ → MultiPolygon α)
    (dpRing : List (Pt α) → ℚ → List (Pt α))
    (validRing : List (Pt α) → Option VFail)
    (poly : Polygon α) (offset tol : ℚ)
    (hv : validPoly poly = none) (ho : 1 ≤ offset)
    (hb : bufferFn poly offset = []) (hve : validMP [] = none)
    (hdp : dpMP [] tol = []) (htol : 1 / 100 ≤ tol) :
    BoundarySwaths validPoly validMP bufferFn dpMP dpRing validRing
      poly offset tol = .ok [] := by
  have hn : ¬offset < 1 / 10 := by
    intro hlt
    linarith
  have hsl : simplifyLoop dpMP validMP [] tol = .ok [] := by
    rw [simplifyLoop, if_neg (not_lt.mpr htol)]
    simp [hdp, hve]
  have hci : ComputeInset validPoly validMP bufferFn poly offset =
      .ok ([] : MultiPolygon α) := by
    rw [ComputeInset]
    simp [EnsureValidG, hv, ho, hb, hve, Bind.bind, Except.bind, Pure.pure,
      Except.pure, throw, throwThe, MonadExceptOf.throw]
  have hsm : SimplifyMP validMP dpMP ([] : MultiPolygon α) tol = .ok [] := by
    rw [SimplifyMP, if_pos htol, hsl]
    rfl
  rw [BoundarySwaths, if_neg hn]
  simp [hci, hsm, Bind.bind, Except.bind, Pure.pure, Except.pure,
    List.mapM, List.mapM.loop]

/-- Witness for C8 at concrete oracles: an always-empty buffer yields
the empty output list. -/
theorem boundarySwaths_empty_inset_witness :
    BoundarySwaths (α := ℤ) (fun _ => none) (fun _ => none)
      (fun _ _ => []) (fun m _ => m) (fun r _ => r) (fun _ => none)
      ⟨[(0, 0), (4, 0), (4, 4), (0, 0)], []⟩ 1 (1 / 10) = .ok [] := by
  exact boundarySwaths_empty_inset _ _ _ _ _ _ _ _ _ rfl (le_refl 1) rfl rfl
    rfl (by norm_num)

/-- C9 counterexample: an invocation whose inset-distance argument is
0.25 ft ≤ 0.5 ft but that also passes `--help` prints the usage text and
makes `main` return 1 — it does not report an argument error and does
not exit with code 2. -/
theorem parseArgs_help_overrides_small_inset :
    ParseArgs ⟨true, 1 / 4, "TASKDATA.XML", "out.xml", "Inset"⟩ = .help ∧
    cliExitCode (ParseArgs ⟨true, 1 / 4, "TASKDATA.XML", "out.xml", "Inset"⟩) =
      some 1 ∧
    cliExitCode (ParseArgs ⟨true, 1 / 4, "TASKDATA.XML", "out.xml", "Inset"⟩) ≠
      some 2 := by
  refine ⟨rfl, rfl, by decide⟩

/-- C9 (amended): an invocation whose inset-distance argument is at
most 0.5 ft reports an argument error and exits with code 2, without
reading the input or producing output — unless `--help` was also given,
in which case usage is printed and the exit code is 1 (still with no
input read and no output produced). -/
theorem parseArgs_small_inset (o : CliOpts) (hle : o.insetFt ≤ 1 / 2) :
    (o.helpRequested = false →
      ParseArgs o = .argError "inset distance must be > 0.5 ft." ∧
      cliExitCode (ParseArgs o) = some 2 ∧
      cliReadsInput (ParseArgs o) = false ∧
      cliWritesOutput (ParseArgs o) = false) ∧
    (o.helpRequested = true →
      ParseArgs o = .help ∧
      cliExitCode (ParseArgs o) = some 1 ∧
      cliReadsInput (ParseArgs o) = false ∧
      cliWritesOutput (ParseArgs o) = false) := by
  constructor
  · intro hh
    have hpa : ParseArgs o = .argError "inset distance must be > 0.5 ft." := by
      rw [ParseArgs]
      rw [if_neg (by simp [hh] : ¬o.helpRequested = true), if_pos hle]
    exact ⟨hpa, by rw [hpa]; rfl, by rw [hpa]; rfl, by rw [hpa]; rfl⟩
  · intro hh
    have hpa : ParseArgs o = .help := by
      rw [ParseArgs, if_pos hh]
    exact ⟨hpa, by rw [hpa]; rfl, by rw [hpa]; rfl, by rw [hpa]; rfl⟩

/-- Witness for C9 (amended): a concrete invocation with inset 0.25 ft
and no help flag exits with the argument error. -/
theorem parseArgs_small_inset_witness :
    ((1 : ℚ) / 4 ≤ 1 / 2) ∧
    ParseArgs ⟨false, 1 / 4, "TASKDATA.XML", "out.xml", "Inset"⟩ =
      .argError "inset distance must be > 0.5 ft." := by
  exact ⟨by norm_num,
    ((parseArgs_small_inset _ (by norm_num)).1 rfl).1⟩

/-- Processing an element never removes entries from the id tables. -/
theorem processElem_mono {st st' : RState} {e : IsoElem}
    (h : processElem st e = .ok st') (t : IsoTag) :
    ∀ id ∈ dbOf t st, id ∈ dbOf t st' := by
  intro id hid
  cases he : e.tag <;> simp only [processElem, he] at h
  case CTR =>
    split at h
    · exact absurd h (by simp)
    split at h
    · exact absurd h (by simp)
    simp only [Except.ok.injEq] at h
    subst h
    cases t <;> simp only [dbOf] at hid ⊢ <;> try exact hid
    exact List.mem_append_left _ hid
  case FRM =>
    split at h
    · exact absurd h (by simp)
    split at h
    · exact absurd h (by simp)
    split at h
    · exact absurd h (by simp)
    simp only [Except.ok.injEq] at h
    subst h
    cases t <;> simp only [dbOf] at hid ⊢ <;> try exact hid
    exact List.mem_append_left _ hid
  case PFD =>
    split at h
    · exact absurd h (by simp)
    split at h
    · exact absurd h (by simp)
    split at h
    · exact absurd h (by simp)
    split at h
    · exact absurd h (by simp)
    split at h
    · exact absurd h (by simp)
    split at h
    · exact absurd h (by simp)
    simp only [Except.ok.injEq] at h
    subst h
    cases t <;> simp only [dbOf] at hid ⊢ <;> try exact hid
    exact List.mem_append_left _ hid
  case VPN =>
    simp only [Except.ok.injEq] at h
    subst h
    exact hid
  case other =>
    simp only [Except.ok.injEq] at h
    subst h
    exact hid

/-- A successfully processed `CTR`/`FRM`/`PFD` element records its
parsed id in the corresponding id table. -/
theorem processElem_pushes {st st' : RState} {e : IsoElem} {t : IsoTag}
    (ht : t = .CTR ∨ t = .FRM ∨ t = .PFD) (he : e.tag = t)
    (h : processElem st e = .ok st') :
    GetId (pfxOf t) e.idAttr ∈ dbOf t st' := by
  rcases ht with rfl | rfl | rfl <;> simp only [processElem, he] at h
  case inl =>
    split at h
    · exact absurd h (by simp)
    split at h
    · exact absurd h (by simp)
    simp only [Except.ok.injEq] at h
    subst h
    simp [dbOf, pfxOf]
  case inr.inl =>
    split at h
    · exact absurd h (by simp)
    split at h
    · exact absurd h (by simp)
    split at h
    · exact absurd h (by simp)
    simp only [Except.ok.injEq] at h
    subst h
    simp [dbOf, pfxOf]
  case inr.inr =>
    split at h
    · exact absurd h (by simp)
    split at h
    · exact absurd h (by simp)
    split at h
    · exact absurd h (by simp)
    split at h
    · exact absurd h (by simp)
    split at h
    · exact absurd h (by simp)
    split at h
    · exact absurd h (by simp)
    simp only [Except.ok.injEq] at h
    subst h
    simp [dbOf, pfxOf]

/-- A `CTR`/`FRM`/`PFD` element whose parsed id is already recorded in
the corresponding table cannot be processed successfully. -/
theorem processElem_rejects {st : RState} {e : IsoElem} {t : IsoTag}
    (ht : t = .CTR ∨ t = .FRM ∨ t = .PFD) (he : e.tag = t)
    (hmem : GetId (pfxOf t) e.idAttr ∈ dbOf t st)
    (hnn : 0 ≤ GetId (pfxOf t) e.idAttr) :
    ∀ st', processElem st e ≠ .ok st' := by
  intro st' h
  rcases ht with rfl | rfl | rfl <;>
    simp only [processElem, he, pfxOf, dbOf] at h hmem hnn <;>
    rw [if_neg (by omega), if_pos hmem] at h <;>
    exact absurd h (by simp)

/-- Once a parsed id is recorded, any later element of the same kind
with that id makes the rest of the element loop fail. -/
theorem processList_error_of_mem {t : IsoTag}
    (ht : t = .CTR ∨ t = .FRM ∨ t = .PFD) (e2 : IsoElem)
    (h2 : e2.tag = t) (hnn : 0 ≤ GetId (pfxOf t) e2.idAttr) :
    ∀ (mid : List IsoElem) (st : RState),
      GetId (pfxOf t) e2.idAttr ∈ dbOf t st →
      ∀ (post : List IsoElem),
        isOkRead (processList st (mid ++ e2 :: post)) = false := by
  intro mid
  induction mid with
  | nil =>
    intro st hmem post
    rw [List.nil_append]
    simp only [processList]
    cases hpe : processElem st e2 with
    | ok st' => exact absurd hpe (processElem_rejects ht h2 hmem hnn st')
    | error m => rfl
  | cons m mid' ih =>
    intro st hmem post
    rw [List.cons_append]
    simp only [processList]
    cases hpe : processElem st m with
    | ok st' => exact ih st' (processElem_mono hpe t _ hmem) post
    | error msg => rfl

/-- The element loop fails on any list containing two
`CTR`/`FRM`/`PFD` elements of the same kind whose ids parse to the same
non-negative value. -/
theorem processList_dup {t : IsoTag}
    (ht : t = .CTR ∨ t = .FRM ∨ t = .PFD) (e1 e2 : IsoElem)
    (h1 : e1.tag = t) (h2 : e2.tag = t)
    (heq : GetId (pfxOf t) e1.idAttr = GetId (pfxOf t) e2.idAttr)
    (hnn : 0 ≤ GetId (pfxOf t) e1.idAttr) :
    ∀ (pre : List IsoElem) (st : RState) (mid post : List IsoElem),
      isOkRead (processList st (pre ++ e1 :: mid ++ e2 :: post)) = false := by
  intro pre
  induction pre with
  | nil =>
    intro st mid post
    rw [List.nil_append]
    simp only [processList]
    cases hpe : processElem st e1 with
    | ok st' =>
      have hmem := processElem_pushes ht h1 hpe
      rw [heq] at hmem
      exact processList_error_of_mem ht e2 h2 (heq ▸ hnn) mid st' hmem post
    | error msg => rfl
  | cons p pre' ih =>
    intro st mid post
    rw [List.cons_append]
    simp only [processList]
    cases hpe : processElem st p with
    | ok st' => exact ih st' mid post
    | error msg => rfl

/-- C10: `FarmDb::ReadXml` rejects every TASKDATA document containing
two `CTR`, two `FRM`, or two `PFD` elements whose id attributes parse
to the same numeric value (ids are compared by parsed integer, so
`CTR1` and `CTR01` collide): the read fails with an error and produces
no `FarmDb`. -/
theorem readXml_rejects_duplicate_ids (vM vN : Int) (t : IsoTag)
    (ht : t = .CTR ∨ t = .FRM ∨ t = .PFD)
    (pre mid post : List IsoElem) (e1 e2 : IsoElem)
    (h1 : e1.tag = t) (h2 : e2.tag = t)
    (heq : GetId (pfxOf t) e1.idAttr = GetId (pfxOf t) e2.idAttr)
    (hnn : 0 ≤ GetId (pfxOf t) e1.idAttr) :
    isOkRead (ReadXml vM vN (pre ++ e1 :: mid ++ e2 :: post)) = false := by
  rw [ReadXml]
  split
  · rfl
  · have h := processList_dup ht e1 e2 h1 h2 heq hnn pre initRState mid post
    cases hpl : processList initRState (pre ++ e1 :: mid ++ e2 :: post) with
    | ok st =>
      rw [hpl] at h
      simp [isOkRead] at h
    | error m => rfl

/-- Witness for C10: a document with customers `CTR1` and `CTR01`
(same parsed id 1) is rejected. -/
theorem readXml_rejects_duplicate_ids_witness :
    GetId "CTR" "CTR1" = GetId "CTR" "CTR01" ∧
    isOkRead (ReadXml 4 2 [⟨.CTR, "CTR1", "Alice", 0, none, none⟩,
      ⟨.CTR, "CTR01", "Bob", 0, none, none⟩]) = false := by
  refine ⟨by decide, ?_⟩
  have h := readXml_rejects_duplicate_ids 4 2 .CTR (Or.inl rfl) [] [] []
    ⟨.CTR, "CTR1", "Alice", 0, none, none⟩
    ⟨.CTR, "CTR01", "Bob", 0, none, none⟩
    rfl rfl (by decide) (by decide)
  exact h

end Ekman
